import Mathlib

/-!
Verification of the Open Food Facts cleaning pipeline (`clean_openfood.py`).

The script is shallowly embedded: a pandas `DataFrame` becomes a `Table`
(a list of column names plus rows of name/value pairs), cell values become
`Value` (text, rational number, or missing), and each cleaning function of
the script becomes an `Except`-returning Lean function that mirrors the
pandas operations line by line, including `KeyError` on a missing column,
`NaN`-propagation of the `.str` accessor on non-string cells, and the
skip-`NaN` median.  Floating point is modelled by `ℚ` (`astype("float32")`
is value-preserving in the model).
-/

set_option autoImplicit false

namespace OpenFood

/-- A cell of the table: a string, a number (pandas floats modelled by `ℚ`),
or a missing value (`NaN`). -/
inductive Value where
  | na : Value
  | num (q : ℚ) : Value
  | text (s : String) : Value
  deriving DecidableEq, Repr

/-- A row: association list from column name to cell value. -/
abbrev Row := List (String × Value)

/-- A pandas `DataFrame`: the column names plus the rows. -/
structure Table where
  cols : List String
  rows : List Row
  deriving DecidableEq, Repr

/-- The cell of row `r` in column `c` (first matching entry). -/
def getCol (r : Row) (c : String) : Option Value :=
  match r with
  | [] => none
  | (k, v) :: rest => if k = c then some v else getCol rest c

/-- Apply `f` to every entry of row `r` belonging to column `c`. -/
def mapRowCol (c : String) (f : Value → Value) (r : Row) : Row :=
  r.map (fun kv => if kv.1 = c then (kv.1, f kv.2) else kv)

/-- `df[c] = df[c].apply(f)`: apply `f` to column `c` of every row. -/
def mapCol (c : String) (f : Value → Value) (t : Table) : Table :=
  ⟨t.cols, t.rows.map (mapRowCol c f)⟩

/-- Set column `dst` of a row to `v`, overwriting the first existing entry
or appending a new one. -/
def setColRow (dst : String) (v : Value) : Row → Row
  | [] => [(dst, v)]
  | (k, w) :: rest =>
    if k = dst then (dst, v) :: rest else (k, w) :: setColRow dst v rest

/-- Row part of `df[dst] = df[src].apply(f)`. -/
def setFromRow (dst src : String) (f : Value → Value) (r : Row) : Row :=
  setColRow dst (f ((getCol r src).getD Value.na)) r

/-- `df[dst] = f(df[src])`: derive column `dst` from column `src`. -/
def setColFrom (dst src : String) (f : Value → Value) (t : Table) : Table :=
  ⟨if dst ∈ t.cols then t.cols else t.cols ++ [dst],
   t.rows.map (setFromRow dst src f)⟩

/-- Remove column `c` from a row. -/
def dropColRow (c : String) (r : Row) : Row :=
  r.filter (fun kv => decide (kv.1 ≠ c))

/-- `df.drop(columns=[c])` once existence has been checked. -/
def dropCol (c : String) (t : Table) : Table :=
  ⟨t.cols.filter (fun s => decide (s ≠ c)), t.rows.map (dropColRow c)⟩

/-- `df[mask]`: keep the rows satisfying `p`. -/
def filterRows (p : Row → Bool) (t : Table) : Table :=
  ⟨t.cols, t.rows.filter p⟩

/-- `df.drop_duplicates()`: drop exact-duplicate rows, keeping the first
occurrence.  `seen` accumulates the rows already kept. -/
def dedupAux (seen : List Row) : List Row → List Row
  | [] => []
  | r :: rest =>
    if r ∈ seen then dedupAux seen rest else r :: dedupAux (r :: seen) rest

/-- Deduplicated row list, first occurrences kept. -/
def dedupKeepFirst (l : List Row) : List Row := dedupAux [] l

/-- Table-level deduplication (columns unchanged). -/
def dedupTable (t : Table) : Table := ⟨t.cols, dedupKeepFirst t.rows⟩

/-! ### String machinery modelling the Python string operations -/

/-- Python `str.strip()`: remove leading and trailing whitespace. -/
def pyStrip (s : String) : String :=
  ⟨((s.data.dropWhile Char.isWhitespace).reverse.dropWhile Char.isWhitespace).reverse⟩

/-- Python `str.lower()` (ASCII, as in the data handled by the script). -/
def pyLower (s : String) : String := ⟨s.data.map Char.toLower⟩

/-- Character scanner for Python `str.title()`: a letter starts a new word
(and is uppercased) when the previous character was not a letter. -/
def titleChars : Bool → List Char → List Char
  | _, [] => []
  | prevAlpha, c :: rest =>
    if c.isAlpha then
      (if prevAlpha then c.toLower else c.toUpper) :: titleChars true rest
    else c :: titleChars false rest

/-- Python `str.title()`. -/
def pyTitle (s : String) : String := ⟨titleChars false s.data⟩

/-- Models Python `html.unescape` restricted to the common named entities;
any other text, in particular text without `&`, passes through unchanged,
and a replaced entity is not rescanned (as in the source library). -/
def unescapeChars : List Char → List Char
  | [] => []
  | '&' :: 'a' :: 'm' :: 'p' :: ';' :: rest => '&' :: unescapeChars rest
  | '&' :: 'l' :: 't' :: ';' :: rest => '<' :: unescapeChars rest
  | '&' :: 'g' :: 't' :: ';' :: rest => '>' :: unescapeChars rest
  | '&' :: 'q' :: 'u' :: 'o' :: 't' :: ';' :: rest => '"' :: unescapeChars rest
  | c :: rest => c :: unescapeChars rest

/-- String-level `html.unescape` model. -/
def htmlUnescape (s : String) : String := ⟨unescapeChars s.data⟩

/-- A regex word character: `[a-zA-Z0-9_]`. -/
def isWordChar (c : Char) : Bool := c.isAlphanum || c = '_'

/-- Scanner for `re.sub(r"\b\w{2,3}:", "", s)`: at a word boundary, greedily
match three word characters followed by a colon, then two word characters
followed by a colon, deleting the match; otherwise copy the character.  The
flag records whether the current position is at a word boundary (start of
string or preceded by a non-word character).  Recursion is by fuel; every
step consumes at least one character, so fuel equal to the string length is
enough and the fuel-exhausted branch is never reached. -/
def stripCodesAux : Nat → Bool → List Char → List Char
  | 0, _, l => l
  | _ + 1, _, [] => []
  | fuel + 1, atB, x :: rest =>
    if atB && isWordChar x then
      match rest with
      | y :: z :: w :: rest3 =>
        if isWordChar y && isWordChar z && w = ':' then
          stripCodesAux fuel true rest3
        else if isWordChar y && z = ':' then
          stripCodesAux fuel true (w :: rest3)
        else x :: stripCodesAux fuel false rest
      | [y, z] =>
        if isWordChar y && z = ':' then [] else x :: stripCodesAux fuel false rest
      | _ => x :: stripCodesAux fuel false rest
    else x :: stripCodesAux fuel (!(isWordChar x)) rest

/-- `s.str.replace(r"\b\w{2,3}:", "", regex=True)` on one string. -/
def stripWordColon (s : String) : String :=
  ⟨stripCodesAux s.data.length true s.data⟩

/-- Scanner for `re.sub(r"\s+", " ", s)`: collapse each whitespace run to a
single space.  The flag records whether we are inside a whitespace run. -/
def collapseWSAux : Bool → List Char → List Char
  | _, [] => []
  | inWS, c :: rest =>
    if c.isWhitespace then
      if inWS then collapseWSAux true rest else ' ' :: collapseWSAux true rest
    else c :: collapseWSAux false rest

/-- `s.str.replace(r"\s+", " ", regex=True)` on one string. -/
def collapseWS (s : String) : String := ⟨collapseWSAux false s.data⟩

/-- Python `s.replace(", ", ",")` (left-to-right, non-overlapping). -/
def commaTightChars : List Char → List Char
  | [] => []
  | ',' :: ' ' :: rest => ',' :: commaTightChars rest
  | c :: rest => c :: commaTightChars rest

/-- `", " → ","` on a string. -/
def commaTight (s : String) : String := ⟨commaTightChars s.data⟩

/-- Python `s.replace(",", ", ")`. -/
def commaSpaceChars : List Char → List Char
  | [] => []
  | ',' :: rest => ',' :: ' ' :: commaSpaceChars rest
  | c :: rest => c :: commaSpaceChars rest

/-- `"," → ", "` on a string. -/
def commaSpace (s : String) : String := ⟨commaSpaceChars s.data⟩

/-- The ASCII apostrophe, written by code point to keep the file plain. -/
def apostChar : Char := Char.ofNat 39

/-- Python `s.replace("’", "'")` (curly to straight apostrophe). -/
def fixApostrophe (s : String) : String :=
  ⟨s.data.map (fun c => if c = '’' then apostChar else c)⟩

/-- Python `s.split(",")`. -/
def splitComma : List Char → List (List Char)
  | [] => [[]]
  | ',' :: rest => [] :: splitComma rest
  | c :: rest =>
    match splitComma rest with
    | s :: ss => (c :: s) :: ss
    | [] => [[c]]

/-- Python `", ".join(segments)`. -/
def joinCommaSpace : List (List Char) → List Char
  | [] => []
  | x :: rest =>
    match rest with
    | [] => x
    | _ :: _ => x ++ ',' :: ' ' :: joinCommaSpace rest

/-- `s.str.split(",").str[0]`: the part of `s` before the first comma. -/
def firstSeg (s : String) : String := ⟨s.data.takeWhile (fun c => c ≠ ',')⟩

/-! ### Value-level operations -/

/-- A pandas `.str` method: acts on strings, and yields `NaN` on every
non-string cell (including `NaN` itself). -/
def strMap (f : String → String) : Value → Value
  | .text s => .text (f s)
  | _ => .na

/-- `Series.fillna(v)`: replace missing cells with `v`. -/
def fillnaV (v : Value) : Value → Value
  | .na => v
  | w => w

/-- `Series.replace(old, new)`: replace cells equal to `old` by `new`. -/
def cellReplace (old new : Value) (v : Value) : Value :=
  if v = old then new else v

/-- `Series.replace([old…], new)`: replace cells in the list by `new`. -/
def cellReplaceList (olds : List Value) (new : Value) (v : Value) : Value :=
  if v ∈ olds then new else v

/-- `apply(lambda x: html.unescape(x) if pd.notnull(x) else x)`: unescape
strings, keep everything else (the script never reaches the lambda with a
non-string non-null cell). -/
def unescapeVal : Value → Value
  | .text s => .text (htmlUnescape s)
  | v => v

/-- `remove_lang_prefix`: on a string, delete a leading two-letter language
code followed by `:` or `_` (regex `^[a-z]{2}[:_]`, case-insensitive) and
strip; every other value is returned unchanged. -/
def removeLangCodeVal : Value → Value
  | .text s =>
    .text (pyStrip ⟨match s.data with
      | a :: b :: c :: rest =>
        if a.isAlpha && b.isAlpha && (c = ':' || c = '_') then rest else s.data
      | l => l⟩)
  | v => v

/-- The `country_map` lookup table of `clean_countries`. -/
def countryTable : List (String × String) :=
  [("Fr", "France"), ("De", "Germany"), ("Gb", "United Kingdom"),
   ("Us", "United States"), ("Uk", "United Kingdom"),
   ("España", "Spain"), ("Espana", "Spain"), ("Francia", "France"),
   ("Frankreich", "France"),
   ("Vereinigte Staaten Von Amerika", "United States"),
   ("Brasil", "Brazil"), ("Brasilien", "Brazil"),
   ("Griechenland", "Greece"), ("Irland", "Ireland"),
   ("Alemania", "Germany"), ("Belgien", "Belgium"),
   ("Selestosina", "Unknown"), ("Ca", "Canada"),
   ("European Union", "European Union"), ("World", "World")]

/-- Association-list lookup for the country table. -/
def lookupStr : List (String × String) → String → Option String
  | [], _ => none
  | (k, v) :: rest, s => if k = s then some v else lookupStr rest s

/-- `country_map.get(c, c)`. -/
def countryLookup (s : String) : String := (lookupStr countryTable s).getD s

/-- `apply(lambda x: ", ".join(country_map.get(c.strip(), c.strip()) for c
in x.split(",")))` on one cell.  The column has just been `fillna`-ed, so
every cell the lambda sees is a string; other values pass through. -/
def countryMapVal : Value → Value
  | .text s =>
    .text ⟨joinCommaSpace ((splitComma s.data).map
      (fun seg => (countryLookup (pyStrip ⟨seg⟩)).data))⟩
  | v => v

/-! ### Numeric sanitizer -/

/-- Insert into a sorted list of rationals. -/
def insertSorted (q : ℚ) : List ℚ → List ℚ
  | [] => [q]
  | x :: xs => if q ≤ x then q :: x :: xs else x :: insertSorted q xs

/-- Insertion sort of a list of rationals. -/
def sortQ (l : List ℚ) : List ℚ := l.foldr insertSorted []

/-- `Series.median()` over the non-missing values: `NaN` (here `none`) on
the empty list, the middle element of the sorted values for odd length,
the mean of the two middle elements for even length. -/
def medianQ (l : List ℚ) : Option ℚ :=
  if (sortQ l).length = 0 then none
  else if (sortQ l).length % 2 = 1 then
    some ((sortQ l).getD ((sortQ l).length / 2) 0)
  else
    some (((sortQ l).getD ((sortQ l).length / 2 - 1) 0 +
           (sortQ l).getD ((sortQ l).length / 2) 0) / 2)

/-- `df.loc[(df[col] < 0) | (df[col] > 1000), col] = np.nan` on one cell:
`NaN` compares false, so only numbers can be marked invalid. -/
def outlierToNa : Value → Value
  | .num q => if q < 0 ∨ 1000 < q then .na else .num q
  | v => v

/-- `fillna(median)` on one cell: when the median is `NaN` (`none`) the
missing cell stays missing. -/
def fillOpt : Option ℚ → Value → Value
  | some m, .na => .num m
  | _, v => v

/-- The numeric cells of column `c` (pandas skips `NaN` for the median). -/
def colNums (t : Table) (c : String) : List ℚ :=
  t.rows.filterMap (fun r =>
    match getCol r c with
    | some (.num q) => some q
    | _ => none)

/-- One loop iteration of `clean_nutritional_columns` for column `c`:
invalidate out-of-range values, then fill missing values with the median of
the column as it stands after invalidation (`astype("float32")` is
value-preserving in the model). -/
def sanitizeCol (t : Table) (c : String) : Table :=
  let t1 := mapCol c outlierToNa t
  mapCol c (fillOpt (medianQ (colNums t1 c))) t1

/-- The eight nutritional columns of `clean_nutritional_columns`. -/
def numCols : List String :=
  ["energy-kcal_100g", "fat_100g", "saturated-fat_100g", "sugars_100g",
   "salt_100g", "proteins_100g", "fiber_100g", "carbohydrates_100g"]

/-! ### The cleaning stages -/

/-- `clean_product_name`: unescape, strip, title-case, drop the rows whose
cleaned name is `"Xxx"` (a `NaN` cell compares not-equal and is kept), then
fill missing names with `"Unknown"`.  `KeyError` if the column is absent. -/
def clean_product_name (t : Table) : Except String Table :=
  if "product_name" ∈ t.cols then
    let t1 := mapCol "product_name" unescapeVal t
    let t2 := mapCol "product_name" (strMap pyStrip) t1
    let t3 := mapCol "product_name" (strMap pyTitle) t2
    let t4 := filterRows
      (fun r => decide (getCol r "product_name" ≠ some (Value.text "Xxx"))) t3
    .ok (mapCol "product_name" (fillnaV (Value.text "Unknown")) t4)
  else .error "KeyError: product_name"

/-- `clean_brands`: unescape, title-case, strip, replace the junk literal,
fix apostrophes, normalize comma spacing, fill missing with `"Unknown"`. -/
def clean_brands (t : Table) : Except String Table :=
  if "brands" ∈ t.cols then
    let t1 := mapCol "brands" unescapeVal t
    let t2 := mapCol "brands" (strMap (fun s => pyStrip (pyTitle s))) t1
    let t3 := mapCol "brands"
      (cellReplace (Value.text "Xylimgxyling") (Value.text "Unknown")) t2
    let t4 := mapCol "brands" (strMap fixApostrophe) t3
    let t5 := mapCol "brands" (strMap (fun s => commaSpace (commaTight s))) t4
    .ok (mapCol "brands" (fillnaV (Value.text "Unknown")) t5)
  else .error "KeyError: brands"

/-- `clean_categories`: turn the junk literals into missing, strip, fill
missing with `"Unknown"`, remove the language prefix, then derive
`categories_top` as the title-cased first comma segment (its `fillna` is a
no-op on the string results but is kept for fidelity). -/
def clean_categories (t : Table) : Except String Table :=
  if "categories" ∈ t.cols then
    let t1 := mapCol "categories"
      (cellReplaceList [Value.text "undefined", Value.text "za"] Value.na) t
    let t2 := mapCol "categories" (strMap pyStrip) t1
    let t3 := mapCol "categories" (fillnaV (Value.text "Unknown")) t2
    let t4 := mapCol "categories" removeLangCodeVal t3
    .ok (setColFrom "categories_top" "categories"
      (fun v => fillnaV (Value.text "Unknown") (strMap pyTitle (strMap firstSeg v))) t4)
  else .error "KeyError: categories"

/-- `clean_countries`: remove `\b\w{2,3}:` codes, strip, normalize comma
spacing, title-case, fill missing with `"Unknown"`, then map each
comma-separated token through `country_map` (unmapped tokens unchanged). -/
def clean_countries (t : Table) : Except String Table :=
  if "countries" ∈ t.cols then
    let t1 := mapCol "countries" (strMap stripWordColon) t
    let t2 := mapCol "countries"
      (strMap (fun s => pyTitle (commaSpace (commaTight (pyStrip s))))) t1
    let t3 := mapCol "countries" (fillnaV (Value.text "Unknown")) t2
    .ok (mapCol "countries" countryMapVal t3)
  else .error "KeyError: countries"

/-- `clean_ingredients_labels_packaging`: the three per-column chains of
the source, in source order. -/
def clean_ingredients_labels_packaging (t : Table) : Except String Table :=
  if _h : "ingredients_text" ∈ t.cols ∧ "labels" ∈ t.cols ∧ "packaging" ∈ t.cols then
    let t1 := mapCol "ingredients_text" (fillnaV (Value.text "Unknown")) t
    let t2 := mapCol "ingredients_text"
      (strMap (fun s => collapseWS (pyLower (pyStrip s)))) t1
    let t3 := mapCol "labels" (fillnaV (Value.text "Unknown")) t2
    let t4 := mapCol "labels"
      (strMap (fun s => commaSpace (commaTight (pyLower (stripWordColon s))))) t3
    let t5 := mapCol "packaging"
      (strMap (fun s => pyStrip (commaSpace (commaTight (stripWordColon s))))) t4
    let t6 := mapCol "packaging" (fillnaV (Value.text "Unknown")) t5
    let t7 := mapCol "packaging" (strMap pyTitle) t6
    .ok (mapCol "packaging"
      (cellReplaceList [Value.text "40g", Value.text "packaging",
        Value.text "plaza vea", Value.text "za"] (Value.text "Unknown")) t7)
  else .error "KeyError: ingredients_text, labels or packaging"

/-- `fillna("unknown").replace("not-applicable", "Unknown").str.lower()`
on one `nutriscore_grade` cell. -/
def gradeV (v : Value) : Value :=
  strMap pyLower (cellReplace (Value.text "not-applicable") (Value.text "Unknown")
    (fillnaV (Value.text "unknown") v))

/-- The `nutri_map` dictionary: unmapped cells become `NaN`. -/
def nutriMapV : Value → Value
  | .text s =>
    if s = "a" then .num 1 else if s = "b" then .num 2
    else if s = "c" then .num 3 else if s = "d" then .num 4
    else if s = "e" then .num 5 else if s = "unknown" then .num 0
    else .na
  | _ => .na

/-- `clean_nutriscore`: normalize the grade, derive `nutriscore_numeric`,
then drop `environmental_score_score`; `KeyError` when the dropped column
(or the grade column) is absent. -/
def clean_nutriscore (t : Table) : Except String Table :=
  if "nutriscore_grade" ∈ t.cols then
    let t1 := mapCol "nutriscore_grade" gradeV t
    let t2 := setColFrom "nutriscore_numeric" "nutriscore_grade" nutriMapV t1
    if "environmental_score_score" ∈ t2.cols then
      .ok (dropCol "environmental_score_score" t2)
    else .error "KeyError: environmental_score_score"
  else .error "KeyError: nutriscore_grade"

/-- The `nova_map` dictionary: keys `1`–`4` and the string `"unknown"`;
unmapped cells become `NaN`. -/
def novaMapV : Value → Value
  | .num q =>
    if q = 1 then .text "Unprocessed or Minimally Processed"
    else if q = 2 then .text "Processed Culinary Ingredients"
    else if q = 3 then .text "Processed Foods"
    else if q = 4 then .text "Ultra-Processed Foods"
    else .na
  | .text s => if s = "unknown" then .text "Unknown" else .na
  | .na => .na

/-- `clean_nova_group`: fill missing with the string `"unknown"`, then
derive `nova_group_label` through `nova_map`. -/
def clean_nova_group (t : Table) : Except String Table :=
  if "nova_group" ∈ t.cols then
    let t1 := mapCol "nova_group" (fillnaV (Value.text "unknown")) t
    .ok (setColFrom "nova_group_label" "nova_group" novaMapV t1)
  else .error "KeyError: nova_group"

/-- `clean_nutritional_columns`: for each of the eight columns, invalidate
values outside `[0, 1000]` and fill missing values with the post-removal
median. -/
def clean_nutritional_columns (t : Table) : Except String Table :=
  if _h : ∀ c ∈ numCols, c ∈ t.cols then .ok (numCols.foldl sanitizeCol t)
  else .error "KeyError: nutritional column"

/-! ### Reporter and pipeline -/

/-- The numbers printed by `show_cleaning_summary`. -/
structure Summary where
  originalShape : Nat × Nat
  cleanedShape : Nat × Nat
  removedRows : Int
  removedCols : Int
  missingTop : List (String × Nat)
  deriving DecidableEq, Repr

/-- `df[c].isnull().sum()`. -/
def nullCount (t : Table) (c : String) : Nat :=
  t.rows.countP (fun r => decide (getCol r c = some Value.na))

/-- Insertion sort of the per-column missing counts, descending. -/
def insertByCountDesc (p : String × Nat) :
    List (String × Nat) → List (String × Nat)
  | [] => [p]
  | q :: rest =>
    if q.2 ≤ p.2 then p :: q :: rest else q :: insertByCountDesc p rest

/-- `missing[missing > 0].sort_values(ascending=False)`. -/
def sortByCountDesc (l : List (String × Nat)) : List (String × Nat) :=
  l.foldr insertByCountDesc []

/-- `show_cleaning_summary`: computes shape deltas and the top-10 columns
with remaining missing values, prints them, and returns the dataframe.
The printed report is modelled by the `Summary` component; the returned
table is the first component. -/
def show_cleaning_summary (t : Table) (originalShape : Nat × Nat) :
    Table × Summary :=
  let cleanedShape := (t.rows.length, t.cols.length)
  let missing := (t.cols.map (fun c => (c, nullCount t c))).filter
    (fun p => decide (0 < p.2))
  (t,
   { originalShape := originalShape
     cleanedShape := cleanedShape
     removedRows := (originalShape.1 : Int) - (cleanedShape.1 : Int)
     removedCols := (originalShape.2 : Int) - (cleanedShape.2 : Int)
     missingTop := (sortByCountDesc missing).take 10 })

/-- `run_pipeline` without the file I/O: deduplicate, apply the eight
cleaning stages in source order, and return the table that `save_data`
writes.  `show_cleaning_summary` runs after saving and its result is
discarded, as in the source. -/
def run_pipeline (t : Table) : Except String Table :=
  let t0 := dedupTable t
  (clean_product_name t0).bind fun a1 =>
  (clean_brands a1).bind fun a2 =>
  (clean_categories a2).bind fun a3 =>
  (clean_countries a3).bind fun a4 =>
  (clean_ingredients_labels_packaging a4).bind fun a5 =>
  (clean_nutriscore a5).bind fun a6 =>
  (clean_nova_group a6).bind fun a7 =>
  (clean_nutritional_columns a7).bind fun a8 =>
  let _ := show_cleaning_summary a8 (t0.rows.length, t0.cols.length)
  .ok a8

/-! ### Derived definitions used to state the claims -/

/-- `true` on number and missing cells: the well-typedness of a numeric
column. -/
def isNumOrNa : Value → Bool
  | .text _ => false
  | _ => true

/-- The values of column `c` that lie within `[0, 1000]` — the values over
which, per the specification, the replacement median is computed. -/
def validNums (t : Table) (c : String) : List ℚ :=
  t.rows.filterMap (fun r =>
    match getCol r c with
    | some (.num q) => if q < 0 ∨ 1000 < q then none else some q
    | _ => none)

/-- The per-cell sanitizer as the specification words it: an out-of-range
or missing cell becomes the median `m` (remaining missing when the median
is undefined), an in-range number is kept, a string is untouched. -/
def sanitizeV (m : Option ℚ) : Value → Value
  | .num q => if q < 0 ∨ 1000 < q then fillOpt m .na else .num q
  | .na => fillOpt m .na
  | .text s => .text s

/-- The cleaning applied to `product_name` before the `"Xxx"` filter:
unescape, strip, title-case. -/
def cleanNameV (v : Value) : Value :=
  strMap pyTitle (strMap pyStrip (unescapeVal v))

/-- Row form of the pre-filter `product_name` cleaning. -/
def prodCleanRow (r : Row) : Row :=
  mapRowCol "product_name" (strMap pyTitle)
    (mapRowCol "product_name" (strMap pyStrip)
      (mapRowCol "product_name" unescapeVal r))

/-- The row filter of `clean_product_name`: keep a row unless its cleaned
name equals `"Xxx"` (a missing name compares not-equal and is kept). -/
def keepRowPN (r : Row) : Bool :=
  decide (getCol r "product_name" ≠ some (Value.text "Xxx"))

/-- The final missing-name fill of `clean_product_name`, row form. -/
def fillUnknownRow (r : Row) : Row :=
  mapRowCol "product_name" (fillnaV (Value.text "Unknown")) r

/-- Does `clean_product_name` drop the row?  Decided on the raw row. -/
def isXxxRow (r : Row) : Bool :=
  decide (cleanNameV ((getCol r "product_name").getD Value.na) = Value.text "Xxx")

/-- Number of rows removed by the `"Xxx"` filter. -/
def countXxx (l : List Row) : Nat := l.countP isXxxRow

/-- The per-cell effect of `clean_countries` (the four column passes
composed). -/
def countriesV (v : Value) : Value :=
  countryMapVal (fillnaV (Value.text "Unknown")
    (strMap (fun s => pyTitle (commaSpace (commaTight (pyStrip s))))
      (strMap stripWordColon v)))

/-- `nutriscore_numeric` as a function of the raw grade cell. -/
def nutriNumV (v : Value) : Value := nutriMapV (gradeV v)

/-- The per-row effect of `clean_nutriscore`. -/
def nutriRowF (r : Row) : Row :=
  dropColRow "environmental_score_score"
    (setFromRow "nutriscore_numeric" "nutriscore_grade" nutriMapV
      (mapRowCol "nutriscore_grade" gradeV r))

/-- `nova_group_label` as a function of the raw `nova_group` cell. -/
def novaLabelV (v : Value) : Value :=
  novaMapV (fillnaV (Value.text "unknown") v)

/-- The per-row effect of `clean_nova_group`. -/
def novaRowF (r : Row) : Row :=
  setFromRow "nova_group_label" "nova_group" novaMapV
    (mapRowCol "nova_group" (fillnaV (Value.text "unknown")) r)

/-- The eight case variants of the literal `"xxx"`. -/
def xxxVariants : List String :=
  ["xxx", "xxX", "xXx", "xXX", "Xxx", "XxX", "XXx", "XXX"]

/-! ### Concrete tables for witnesses and counterexamples -/

/-- A full-width row holding every column the pipeline touches. -/
def wideRow : Row :=
  [("product_name", .text "A"), ("brands", .text "B"),
   ("categories", .text "C"), ("countries", .text "D"),
   ("ingredients_text", .text "e"), ("labels", .text "f"),
   ("packaging", .text "G"), ("nutriscore_grade", .text "a"),
   ("nova_group", .num 1), ("environmental_score_score", .num 0),
   ("energy-kcal_100g", .num 1), ("fat_100g", .num 2),
   ("saturated-fat_100g", .num 3), ("sugars_100g", .num 4),
   ("salt_100g", .num 5), ("proteins_100g", .num 6),
   ("fiber_100g", .num 7), ("carbohydrates_100g", .num 8)]

/-- The column list of `wideRow`. -/
def wideCols : List String := wideRow.map Prod.fst

/-- A one-row table covering the whole pipeline. -/
def pipeIn : Table := ⟨wideCols, [wideRow]⟩

/-- `wideRow` with a product name that cleans to `"Xxx"`. -/
def xxxWideRow : Row :=
  [("product_name", .text " xXx "), ("brands", .text "B"),
   ("categories", .text "C"), ("countries", .text "D"),
   ("ingredients_text", .text "e"), ("labels", .text "f"),
   ("packaging", .text "G"), ("nutriscore_grade", .text "a"),
   ("nova_group", .num 1), ("environmental_score_score", .num 0),
   ("energy-kcal_100g", .num 1), ("fat_100g", .num 2),
   ("saturated-fat_100g", .num 3), ("sugars_100g", .num 4),
   ("salt_100g", .num 5), ("proteins_100g", .num 6),
   ("fiber_100g", .num 7), ("carbohydrates_100g", .num 8)]

/-- A duplicate of `wideRow` plus a row the `"Xxx"` filter removes. -/
def dupXxxIn : Table := ⟨wideCols, [wideRow, wideRow, xxxWideRow]⟩

/-- One numeric row whose `fat_100g` is missing and stays missing (the
whole column is missing, so the median is undefined). -/
def cexNumRow : Row :=
  [("energy-kcal_100g", .num 1), ("fat_100g", .na),
   ("saturated-fat_100g", .num 1), ("sugars_100g", .num 1),
   ("salt_100g", .num 1), ("proteins_100g", .num 1),
   ("fiber_100g", .num 1), ("carbohydrates_100g", .num 1)]

/-- The all-missing-column counterexample table for the sanitizer. -/
def cexNum : Table := ⟨numCols, [cexNumRow]⟩

/-- A well-behaved two-row numeric table: one outlier, one missing cell,
and every column keeps at least one value inside `[0, 1000]`. -/
def wNum : Table :=
  ⟨numCols,
   [[("energy-kcal_100g", .num 2000), ("fat_100g", .na),
     ("saturated-fat_100g", .num 1), ("sugars_100g", .num 1),
     ("salt_100g", .num 1), ("proteins_100g", .num 1),
     ("fiber_100g", .num 1), ("carbohydrates_100g", .num 1)],
    [("energy-kcal_100g", .num 3), ("fat_100g", .num 3),
     ("saturated-fat_100g", .num 3), ("sugars_100g", .num 3),
     ("salt_100g", .num 3), ("proteins_100g", .num 3),
     ("fiber_100g", .num 3), ("carbohydrates_100g", .num 3)]]⟩

/-- A grade column without `environmental_score_score`. -/
def c5T : Table := ⟨["nutriscore_grade"], [[("nutriscore_grade", .text "a")]]⟩

/-- A one-cell countries table. -/
def c6T : Table := ⟨["countries"], [[("countries", .text "Fr")]]⟩

/-- A grade plus droppable environmental column. -/
def c7T : Table :=
  ⟨["nutriscore_grade", "environmental_score_score"],
   [[("nutriscore_grade", .text "a"), ("environmental_score_score", .num 0)]]⟩

/-- A `nova_group` value outside the known set `{1, 2, 3, 4}`. -/
def c8T : Table := ⟨["nova_group"], [[("nova_group", .num 5)]]⟩

/-- The row `clean_nova_group` produces on `c8T`: the label is missing,
not `"Unknown"`. -/
def c8TOutRow : Row := [("nova_group", .num 5), ("nova_group_label", .na)]

/-- The table `clean_nova_group` produces on `c8T`. -/
def c8TOut : Table := ⟨["nova_group", "nova_group_label"], [c8TOutRow]⟩

/-- An all-caps junk name and a missing name. -/
def c10T : Table :=
  ⟨["product_name"], [[("product_name", .text "XXX")], [("product_name", .na)]]⟩

/-- The table the pipeline writes for `pipeIn` (and for `dupXxxIn`, whose
extra rows are removed by deduplication and the `"Xxx"` filter):
`environmental_score_score` is gone and the three derived columns are
appended. -/
def pipeOut : Table :=
  ⟨["product_name", "brands", "categories", "countries", "ingredients_text",
    "labels", "packaging", "nutriscore_grade", "nova_group",
    "energy-kcal_100g", "fat_100g", "saturated-fat_100g", "sugars_100g",
    "salt_100g", "proteins_100g", "fiber_100g", "carbohydrates_100g",
    "categories_top", "nutriscore_numeric", "nova_group_label"],
   [[("product_name", .text "A"), ("brands", .text "B"),
     ("categories", .text "C"), ("countries", .text "D"),
     ("ingredients_text", .text "e"), ("labels", .text "f"),
     ("packaging", .text "G"), ("nutriscore_grade", .text "a"),
     ("nova_group", .num 1), ("energy-kcal_100g", .num 1),
     ("fat_100g", .num 2), ("saturated-fat_100g", .num 3),
     ("sugars_100g", .num 4), ("salt_100g", .num 5),
     ("proteins_100g", .num 6), ("fiber_100g", .num 7),
     ("carbohydrates_100g", .num 8), ("categories_top", .text "C"),
     ("nutriscore_numeric", .num 1),
     ("nova_group_label", .text "Unprocessed or Minimally Processed")]]⟩

/-! ### Basic lemmas about rows and columns -/

@[simp] theorem getCol_nil (c : String) : getCol [] c = none := rfl

theorem getCol_cons (k : String) (v : Value) (r : Row) (c : String) :
    getCol ((k, v) :: r) c = if k = c then some v else getCol r c := rfl

@[simp] theorem mapRowCol_nil (c : String) (f : Value → Value) :
    mapRowCol c f [] = [] := rfl

theorem mapRowCol_cons (c : String) (f : Value → Value) (k : String)
    (v : Value) (r : Row) :
    mapRowCol c f ((k, v) :: r) =
      (if k = c then (k, f v) else (k, v)) :: mapRowCol c f r := rfl

@[simp]
theorem getCol_mapRowCol_self (c : String) (f : Value → Value) (r : Row) :
    getCol (mapRowCol c f r) c = (getCol r c).map f := by
  induction r with
  | nil => rfl
  | cons kv rest ih =>
    obtain ⟨k, v⟩ := kv
    rw [mapRowCol_cons]
    by_cases hk : k = c
    · rw [if_pos hk, getCol_cons, if_pos hk, getCol_cons, if_pos hk]; rfl
    · rw [if_neg hk, getCol_cons, if_neg hk, getCol_cons, if_neg hk, ih]

theorem getCol_mapRowCol_ne {c c' : String} (h : c' ≠ c) (f : Value → Value)
    (r : Row) : getCol (mapRowCol c f r) c' = getCol r c' := by
  induction r with
  | nil => rfl
  | cons kv rest ih =>
    obtain ⟨k, v⟩ := kv
    rw [mapRowCol_cons]
    by_cases hk : k = c
    · have hk' : k ≠ c' := by rw [hk]; exact fun e => h e.symm
      rw [if_pos hk, getCol_cons, if_neg hk', getCol_cons, if_neg hk', ih]
    · by_cases hk' : k = c'
      · rw [if_neg hk, getCol_cons, if_pos hk', getCol_cons, if_pos hk']
      · rw [if_neg hk, getCol_cons, if_neg hk', getCol_cons, if_neg hk', ih]

theorem setColRow_cons (d : String) (v : Value) (k : String) (w : Value)
    (r : Row) :
    setColRow d v ((k, w) :: r) =
      if k = d then (d, v) :: r else (k, w) :: setColRow d v r := rfl

@[simp]
theorem getCol_setColRow_self (d : String) (v : Value) (r : Row) :
    getCol (setColRow d v r) d = some v := by
  induction r with
  | nil => simp [setColRow, getCol_cons]
  | cons kv rest ih =>
    obtain ⟨k, w⟩ := kv
    rw [setColRow_cons]
    by_cases hk : k = d
    · rw [if_pos hk, getCol_cons, if_pos rfl]
    · rw [if_neg hk, getCol_cons, if_neg hk, ih]

theorem getCol_setColRow_ne {c d : String} (h : c ≠ d) (v : Value) (r : Row) :
    getCol (setColRow d v r) c = getCol r c := by
  induction r with
  | nil =>
    have hd : ¬d = c := fun e => h e.symm
    simp [setColRow, getCol_cons, hd]
  | cons kv rest ih =>
    obtain ⟨k, w⟩ := kv
    rw [setColRow_cons]
    by_cases hk : k = d
    · have hk' : ¬d = c := fun e => h e.symm
      have hkc : ¬k = c := by rw [hk]; exact hk'
      rw [if_pos hk, getCol_cons, if_neg hk', getCol_cons, if_neg hkc]
    · rw [if_neg hk, getCol_cons, getCol_cons, ih]

theorem dropColRow_cons (d : String) (k : String) (w : Value) (r : Row) :
    dropColRow d ((k, w) :: r) =
      if k = d then dropColRow d r else (k, w) :: dropColRow d r := by
  by_cases hk : k = d <;> simp [dropColRow, List.filter, hk]

theorem getCol_dropColRow_ne {c d : String} (h : c ≠ d) (r : Row) :
    getCol (dropColRow d r) c = getCol r c := by
  induction r with
  | nil => rfl
  | cons kv rest ih =>
    obtain ⟨k, w⟩ := kv
    rw [dropColRow_cons]
    by_cases hk : k = d
    · have hkc : ¬k = c := by rw [hk]; exact fun e => h e.symm
      rw [if_pos hk, getCol_cons, if_neg hkc, ih]
    · rw [if_neg hk, getCol_cons, getCol_cons, ih]

theorem mapRowCol_mapRowCol (c : String) (f g : Value → Value) (r : Row) :
    mapRowCol c f (mapRowCol c g r) = mapRowCol c (fun v => f (g v)) r := by
  induction r with
  | nil => rfl
  | cons kv rest ih =>
    obtain ⟨k, v⟩ := kv
    rw [mapRowCol_cons, mapRowCol_cons]
    by_cases hk : k = c
    · rw [if_pos hk, mapRowCol_cons, if_pos hk, if_pos hk, ih]
    · rw [if_neg hk, mapRowCol_cons, if_neg hk, if_neg hk, ih]

theorem mapCol_mapCol (c : String) (f g : Value → Value) (t : Table) :
    mapCol c f (mapCol c g t) = mapCol c (fun v => f (g v)) t := by
  simp only [mapCol, List.map_map]
  refine congrArg (Table.mk t.cols) (List.map_congr_left fun r _ => ?_)
  exact mapRowCol_mapRowCol c f g r

@[simp] theorem mapCol_cols (c : String) (f : Value → Value) (t : Table) :
    (mapCol c f t).cols = t.cols := rfl

@[simp] theorem mapCol_rows_length (c : String) (f : Value → Value) (t : Table) :
    (mapCol c f t).rows.length = t.rows.length := by simp [mapCol]

/-! ### Median lemmas -/

theorem mem_insertSorted {x q : ℚ} {l : List ℚ}
    (h : x ∈ insertSorted q l) : x = q ∨ x ∈ l := by
  induction l with
  | nil => simpa [insertSorted] using h
  | cons y ys ih =>
    rw [insertSorted] at h
    by_cases hq : q ≤ y
    · rw [if_pos hq] at h
      simp only [List.mem_cons] at h ⊢
      tauto
    · rw [if_neg hq] at h
      simp only [List.mem_cons] at h ⊢
      rcases h with h1 | h1
      · tauto
      · rcases ih h1 with h2 | h2 <;> tauto

theorem length_insertSorted (q : ℚ) (l : List ℚ) :
    (insertSorted q l).length = l.length + 1 := by
  induction l with
  | nil => rfl
  | cons y ys ih =>
    rw [insertSorted]
    by_cases hq : q ≤ y
    · rw [if_pos hq]; rfl
    · rw [if_neg hq]; simp [ih]

theorem mem_sortQ {x : ℚ} {l : List ℚ} (h : x ∈ sortQ l) : x ∈ l := by
  induction l with
  | nil => simp [sortQ] at h
  | cons y ys ih =>
    rw [sortQ, List.foldr_cons] at h
    rcases mem_insertSorted h with h' | h'
    · simp [h']
    · exact List.mem_cons_of_mem y (ih h')

theorem length_sortQ (l : List ℚ) : (sortQ l).length = l.length := by
  induction l with
  | nil => rfl
  | cons y ys ih =>
    rw [sortQ, List.foldr_cons, length_insertSorted]
    rw [show List.foldr insertSorted [] ys = sortQ ys from rfl, ih]
    rfl

theorem getD_mem {l : List ℚ} {i : Nat} (h : i < l.length) : l.getD i 0 ∈ l := by
  induction l generalizing i with
  | nil => simp at h
  | cons y ys ih =>
    cases i with
    | zero => simp
    | succ j =>
      have : j < ys.length := by simpa using h
      simpa using Or.inr (ih this)

theorem medianQ_range {l : List ℚ} (hne : l ≠ [])
    (hb : ∀ x ∈ l, 0 ≤ x ∧ x ≤ 1000) :
    ∃ m, medianQ l = some m ∧ 0 ≤ m ∧ m ≤ 1000 := by
  have hlen : (sortQ l).length = l.length := length_sortQ l
  have hpos : 0 < (sortQ l).length := by
    rw [hlen]
    exact List.length_pos.2 hne
  have hmem : ∀ i, i < (sortQ l).length →
      0 ≤ (sortQ l).getD i 0 ∧ (sortQ l).getD i 0 ≤ 1000 := by
    intro i hi
    exact hb _ (mem_sortQ (getD_mem hi))
  rw [medianQ, if_neg (Nat.pos_iff_ne_zero.1 hpos)]
  by_cases hodd : (sortQ l).length % 2 = 1
  · rw [if_pos hodd]
    refine ⟨_, rfl, hmem _ ?_⟩
    exact Nat.div_lt_self hpos one_lt_two
  · rw [if_neg hodd]
    have h1 : (sortQ l).length / 2 < (sortQ l).length :=
      Nat.div_lt_self hpos one_lt_two
    have h2 : (sortQ l).length / 2 - 1 < (sortQ l).length :=
      lt_of_le_of_lt (Nat.sub_le _ _) h1
    obtain ⟨ha1, ha2⟩ := hmem _ h2
    obtain ⟨hb1, hb2⟩ := hmem _ h1
    exact ⟨_, rfl, by linarith, by linarith⟩

/-! ### The sanitizer is exactly the specification's sanitizer -/

theorem colNums_mapCol_outlier (t : Table) (c : String) :
    colNums (mapCol c outlierToNa t) c = validNums t c := by
  show (t.rows.map (mapRowCol c outlierToNa)).filterMap _ = _
  rw [List.filterMap_map, validNums]
  refine List.filterMap_congr fun r _ => ?_
  show (match getCol (mapRowCol c outlierToNa r) c with
        | some (.num q) => some q | _ => none) = _
  rw [getCol_mapRowCol_self]
  cases hv : getCol r c with
  | none => rfl
  | some v =>
    cases v with
    | na => rfl
    | text s => rfl
    | num q =>
      by_cases hq : q < 0 ∨ 1000 < q
      · simp [outlierToNa, hq]
      · simp [outlierToNa, hq]

theorem fillOpt_outlier_eq_sanitizeV (m : Option ℚ) :
    (fun v => fillOpt m (outlierToNa v)) = sanitizeV m := by
  funext v
  cases v with
  | na => rfl
  | text s => cases m <;> rfl
  | num q =>
    by_cases hq : q < 0 ∨ 1000 < q
    · simp [outlierToNa, sanitizeV, hq]
    · simp only [outlierToNa, sanitizeV, if_neg hq]
      cases m <;> rfl

theorem sanitizeCol_eq_spec (t : Table) (c : String) :
    sanitizeCol t c = mapCol c (sanitizeV (medianQ (validNums t c))) t := by
  show mapCol c (fillOpt (medianQ (colNums (mapCol c outlierToNa t) c)))
      (mapCol c outlierToNa t) = _
  rw [colNums_mapCol_outlier, mapCol_mapCol, fillOpt_outlier_eq_sanitizeV]

theorem validNums_range (t : Table) (c : String) :
    ∀ x ∈ validNums t c, 0 ≤ x ∧ x ≤ 1000 := by
  intro x hx
  obtain ⟨r, hrmem, hr⟩ := List.mem_filterMap.1 hx
  cases hv : getCol r c with
  | none => rw [hv] at hr; simp at hr
  | some v =>
    rw [hv] at hr
    cases v with
    | na => simp at hr
    | text s => simp at hr
    | num q =>
      have hr' : (if q < 0 ∨ 1000 < q then none else some q) = some x := hr
      by_cases hq : q < 0 ∨ 1000 < q
      · rw [if_pos hq] at hr'; simp at hr'
      · rw [if_neg hq] at hr'
        obtain rfl : q = x := by simpa using hr'
        push_neg at hq
        exact ⟨hq.1, hq.2⟩

theorem validNums_mapCol_ne {c c' : String} (h : c ≠ c') (f : Value → Value)
    (t : Table) : validNums (mapCol c' f t) c = validNums t c := by
  show (t.rows.map (mapRowCol c' f)).filterMap _ = _
  rw [List.filterMap_map, validNums]
  refine List.filterMap_congr fun r _ => ?_
  show (match getCol (mapRowCol c' f r) c with
        | some (.num q) => if q < 0 ∨ 1000 < q then none else some q
        | _ => none) = _
  rw [getCol_mapRowCol_ne h]

theorem sanitizeCol_good (t : Table) (c : String)
    (hp : ∀ r ∈ t.rows, (getCol r c).isSome = true)
    (hv : ∀ r ∈ t.rows, isNumOrNa ((getCol r c).getD Value.na) = true)
    (hne : validNums t c ≠ []) :
    ∀ r ∈ (sanitizeCol t c).rows,
      ∃ q, getCol r c = some (Value.num q) ∧ 0 ≤ q ∧ q ≤ 1000 := by
  obtain ⟨m, hm, hm0, hm1⟩ := medianQ_range hne (validNums_range t c)
  rw [sanitizeCol_eq_spec]
  intro r' hr'
  obtain ⟨r, hr, rfl⟩ := List.mem_map.1 hr'
  rw [getCol_mapRowCol_self]
  obtain ⟨v, hv0⟩ := Option.isSome_iff_exists.1 (hp r hr)
  have hvt := hv r hr
  rw [hv0] at hvt ⊢
  rw [hm]
  cases v with
  | na => exact ⟨m, rfl, hm0, hm1⟩
  | text s => simp [isNumOrNa] at hvt
  | num q =>
    by_cases hq : q < 0 ∨ 1000 < q
    · refine ⟨m, ?_, hm0, hm1⟩
      show some (sanitizeV (some m) (Value.num q)) = _
      rw [show sanitizeV (some m) (Value.num q) = Value.num m from by
        simp [sanitizeV, hq, fillOpt]]
    · refine ⟨q, ?_, ?_, ?_⟩
      · show some (sanitizeV (some m) (Value.num q)) = _
        rw [show sanitizeV (some m) (Value.num q) = Value.num q from by
          simp [sanitizeV, hq]]
      · push_neg at hq; exact hq.1
      · push_neg at hq; exact hq.2

theorem foldl_sanitize_good_preserved (c : String) :
    ∀ (cs : List String) (t : Table), c ∉ cs →
      (∀ r ∈ t.rows, ∃ q, getCol r c = some (Value.num q) ∧ 0 ≤ q ∧ q ≤ 1000) →
      ∀ r ∈ (cs.foldl sanitizeCol t).rows,
        ∃ q, getCol r c = some (Value.num q) ∧ 0 ≤ q ∧ q ≤ 1000 := by
  intro cs
  induction cs with
  | nil => intro t _ hg; simpa using hg
  | cons c' cs ih =>
    intro t hc hg
    rw [List.foldl_cons]
    apply ih _ (fun hmem => hc (List.mem_cons_of_mem c' hmem))
    intro r hr
    rw [sanitizeCol_eq_spec] at hr
    obtain ⟨r0, hr0, rfl⟩ := List.mem_map.1 hr
    have hcc' : c ≠ c' := fun e => hc (by rw [e]; exact List.mem_cons_self c' cs)
    rw [getCol_mapRowCol_ne hcc']
    exact hg r0 hr0

theorem foldl_sanitize_establishes :
    ∀ (cs : List String) (t : Table), cs.Nodup →
      (∀ c ∈ cs, (∀ r ∈ t.rows, (getCol r c).isSome = true) ∧
        (∀ r ∈ t.rows, isNumOrNa ((getCol r c).getD Value.na) = true) ∧
        validNums t c ≠ []) →
      ∀ c ∈ cs, ∀ r ∈ (cs.foldl sanitizeCol t).rows,
        ∃ q, getCol r c = some (Value.num q) ∧ 0 ≤ q ∧ q ≤ 1000 := by
  intro cs
  induction cs with
  | nil => intro t _ _ c hc; simp at hc
  | cons c0 cs ih =>
    intro t hnd hhyp c hc
    rw [List.foldl_cons]
    have hnd0 : c0 ∉ cs := (List.nodup_cons.1 hnd).1
    have hndcs : cs.Nodup := (List.nodup_cons.1 hnd).2
    rcases List.mem_cons.1 hc with rfl | hcs
    · obtain ⟨hp, hv, hne⟩ := hhyp c (List.mem_cons_self _ _)
      exact foldl_sanitize_good_preserved c cs (sanitizeCol t c) hnd0
        (sanitizeCol_good t c hp hv hne)
    · apply ih (sanitizeCol t c0) hndcs _ c hcs
      intro c' hc'
      have hcc0 : c' ≠ c0 := fun e => hnd0 (by rw [← e]; exact hc')
      obtain ⟨hp, hv, hne⟩ := hhyp c' (List.mem_cons_of_mem c0 hc')
      refine ⟨?_, ?_, ?_⟩
      · intro r hr
        rw [sanitizeCol_eq_spec] at hr
        obtain ⟨r0, hr0, rfl⟩ := List.mem_map.1 hr
        rw [getCol_mapRowCol_ne hcc0]
        exact hp r0 hr0
      · intro r hr
        rw [sanitizeCol_eq_spec] at hr
        obtain ⟨r0, hr0, rfl⟩ := List.mem_map.1 hr
        rw [getCol_mapRowCol_ne hcc0]
        exact hv r0 hr0
      · rw [show sanitizeCol t c0 =
            mapCol c0 (sanitizeV (medianQ (validNums t c0))) t from
          sanitizeCol_eq_spec t c0]
        rw [validNums_mapCol_ne hcc0]
        exact hne

theorem except_bind_ok {α β : Type} {x : Except String α}
    {f : α → Except String β} {b : β} (h : x.bind f = .ok b) :
    ∃ a, x = .ok a ∧ f a = .ok b := by
  cases x with
  | error e => simp [Except.bind] at h
  | ok a => exact ⟨a, rfl, by simpa [Except.bind] using h⟩

/-! ### Stage-level lemmas -/

theorem mem_setColFrom_cols (x d s : String) (f : Value → Value) (t : Table) :
    x ∈ (setColFrom d s f t).cols ↔ x ∈ t.cols ∨ x = d := by
  by_cases hd : d ∈ t.cols
  · rw [setColFrom]
    simp only [if_pos hd]
    constructor
    · exact Or.inl
    · rintro (h | rfl)
      · exact h
      · exact hd
  · rw [setColFrom]
    simp only [if_neg hd]
    simp [List.mem_append]

theorem getCol_prodCleanRow (r : Row) :
    getCol (prodCleanRow r) "product_name" =
      (getCol r "product_name").map cleanNameV := by
  rw [prodCleanRow, getCol_mapRowCol_self, getCol_mapRowCol_self,
    getCol_mapRowCol_self]
  cases getCol r "product_name" <;> rfl

theorem keepRowPN_prodCleanRow (r : Row) :
    keepRowPN (prodCleanRow r) = !(isXxxRow r) := by
  rw [keepRowPN, isXxxRow, getCol_prodCleanRow]
  cases hv : getCol r "product_name" with
  | none =>
    have : cleanNameV Value.na ≠ Value.text "Xxx" := by decide
    simp [this]
  | some v => simp [decide_not]

theorem dedupAux_length_le (l : List Row) :
    ∀ seen, (dedupAux seen l).length ≤ l.length := by
  induction l with
  | nil => intro seen; simp [dedupAux]
  | cons r rest ih =>
    intro seen
    rw [dedupAux]
    by_cases hr : r ∈ seen
    · rw [if_pos hr]
      exact le_trans (ih seen) (Nat.le_succ _)
    · rw [if_neg hr]
      simpa using ih (r :: seen)

theorem dedupKeepFirst_length_le (l : List Row) :
    (dedupKeepFirst l).length ≤ l.length := dedupAux_length_le l []

theorem clean_product_name_ok {t u : Table}
    (h : clean_product_name t = .ok u) :
    "product_name" ∈ t.cols ∧ u.cols = t.cols ∧
    u.rows = ((t.rows.map prodCleanRow).filter keepRowPN).map fillUnknownRow ∧
    u.rows.length + countXxx t.rows = t.rows.length := by
  by_cases hp : "product_name" ∈ t.cols
  · rw [clean_product_name, if_pos hp] at h
    obtain rfl := (Except.ok.inj h).symm
    have hrows : (mapCol "product_name" (fillnaV (Value.text "Unknown"))
        (filterRows (fun r =>
            decide (getCol r "product_name" ≠ some (Value.text "Xxx")))
          (mapCol "product_name" (strMap pyTitle)
            (mapCol "product_name" (strMap pyStrip)
              (mapCol "product_name" unescapeVal t))))).rows =
        ((t.rows.map prodCleanRow).filter keepRowPN).map fillUnknownRow := by
      show ((((t.rows.map (mapRowCol "product_name" unescapeVal)).map
          (mapRowCol "product_name" (strMap pyStrip))).map
          (mapRowCol "product_name" (strMap pyTitle))).filter _).map _ = _
      rw [List.map_map, List.map_map]
      rfl
    refine ⟨hp, rfl, hrows, ?_⟩
    rw [hrows, List.length_map, ← List.countP_eq_length_filter,
      List.countP_map]
    have hconv : List.countP (keepRowPN ∘ prodCleanRow) t.rows =
        List.countP (fun r => !(isXxxRow r)) t.rows := by
      refine List.countP_congr fun r _ => ?_
      show keepRowPN (prodCleanRow r) = true ↔ (!isXxxRow r) = true
      rw [keepRowPN_prodCleanRow]
    rw [hconv, countXxx]
    have hsplit := t.rows.length_eq_countP_add_countP isXxxRow
    have hnot : List.countP (fun a => decide ¬(isXxxRow a = true)) t.rows =
        List.countP (fun r => !(isXxxRow r)) t.rows := by
      refine List.countP_congr fun r _ => ?_
      simp
    omega
  · rw [clean_product_name, if_neg hp] at h
    cases h

theorem clean_brands_ok {t u : Table} (h : clean_brands t = .ok u) :
    "brands" ∈ t.cols ∧ u.cols = t.cols ∧ u.rows.length = t.rows.length := by
  by_cases hb : "brands" ∈ t.cols
  · rw [clean_brands, if_pos hb] at h
    obtain rfl := (Except.ok.inj h).symm
    exact ⟨hb, rfl, by simp [mapCol]⟩
  · rw [clean_brands, if_neg hb] at h
    cases h

theorem clean_categories_ok {t u : Table} (h : clean_categories t = .ok u) :
    "categories" ∈ t.cols ∧
    (∀ x, x ∈ u.cols ↔ x ∈ t.cols ∨ x = "categories_top") ∧
    u.rows.length = t.rows.length := by
  by_cases hc : "categories" ∈ t.cols
  · rw [clean_categories, if_pos hc] at h
    obtain rfl := (Except.ok.inj h).symm
    refine ⟨hc, ?_, ?_⟩
    · intro x
      exact mem_setColFrom_cols x _ _ _ _
    · show (List.map _ _).length = _
      simp [mapCol]
  · rw [clean_categories, if_neg hc] at h
    cases h

theorem clean_countries_ok {t u : Table} (h : clean_countries t = .ok u) :
    "countries" ∈ t.cols ∧ u = mapCol "countries" countriesV t := by
  by_cases hc : "countries" ∈ t.cols
  · rw [clean_countries, if_pos hc] at h
    obtain rfl := (Except.ok.inj h).symm
    refine ⟨hc, ?_⟩
    rw [mapCol_mapCol, mapCol_mapCol, mapCol_mapCol]
    refine congrArg (fun φ => mapCol "countries" φ t) ?_
    funext v
    rfl
  · rw [clean_countries, if_neg hc] at h
    cases h

theorem clean_ilp_ok {t u : Table}
    (h : clean_ingredients_labels_packaging t = .ok u) :
    ("ingredients_text" ∈ t.cols ∧ "labels" ∈ t.cols ∧
      "packaging" ∈ t.cols) ∧
    u.cols = t.cols ∧ u.rows.length = t.rows.length := by
  by_cases hc : "ingredients_text" ∈ t.cols ∧ "labels" ∈ t.cols ∧
      "packaging" ∈ t.cols
  · rw [clean_ingredients_labels_packaging, dif_pos hc] at h
    obtain rfl := (Except.ok.inj h).symm
    exact ⟨hc, rfl, by simp [mapCol]⟩
  · rw [clean_ingredients_labels_packaging, dif_neg hc] at h
    cases h

theorem clean_nutriscore_err {t : Table}
    (hg : "nutriscore_grade" ∈ t.cols)
    (he : "environmental_score_score" ∉ t.cols) :
    clean_nutriscore t = .error "KeyError: environmental_score_score" := by
  rw [clean_nutriscore, if_pos hg]
  have he2 : "environmental_score_score" ∉
      (setColFrom "nutriscore_numeric" "nutriscore_grade" nutriMapV
        (mapCol "nutriscore_grade" gradeV t)).cols := by
    rw [mem_setColFrom_cols]
    rintro (h | h)
    · exact he h
    · exact absurd h (by decide)
  rw [if_neg he2]

theorem clean_nutriscore_ok {t u : Table} (h : clean_nutriscore t = .ok u) :
    "nutriscore_grade" ∈ t.cols ∧ "environmental_score_score" ∈ t.cols ∧
    (∀ x, x ∈ u.cols ↔ (x ∈ t.cols ∨ x = "nutriscore_numeric") ∧
      x ≠ "environmental_score_score") ∧
    u.rows.length = t.rows.length ∧ u.rows = t.rows.map nutriRowF := by
  by_cases hg : "nutriscore_grade" ∈ t.cols
  · rw [clean_nutriscore, if_pos hg] at h
    by_cases he2 : "environmental_score_score" ∈
        (setColFrom "nutriscore_numeric" "nutriscore_grade" nutriMapV
          (mapCol "nutriscore_grade" gradeV t)).cols
    · rw [if_pos he2] at h
      obtain rfl := (Except.ok.inj h).symm
      have he : "environmental_score_score" ∈ t.cols := by
        rcases (mem_setColFrom_cols _ _ _ _ _).1 he2 with h' | h'
        · exact h'
        · exact absurd h' (by decide)
      refine ⟨hg, he, ?_, ?_, ?_⟩
      · intro x
        show x ∈ List.filter _ (setColFrom _ _ _ _).cols ↔ _
        rw [List.mem_filter, mem_setColFrom_cols]
        simp [decide_eq_true_eq]
      · show (List.map _ ((mapCol _ _ t).rows.map _)).length = _
        simp [mapCol]
      · show ((t.rows.map _).map _).map _ = _
        rw [List.map_map, List.map_map]
        rfl
    · rw [if_neg he2] at h
      cases h
  · rw [clean_nutriscore, if_neg hg] at h
    cases h

theorem clean_nova_group_ok {t u : Table} (h : clean_nova_group t = .ok u) :
    "nova_group" ∈ t.cols ∧
    (∀ x, x ∈ u.cols ↔ x ∈ t.cols ∨ x = "nova_group_label") ∧
    u.rows.length = t.rows.length ∧ u.rows = t.rows.map novaRowF := by
  by_cases hn : "nova_group" ∈ t.cols
  · rw [clean_nova_group, if_pos hn] at h
    obtain rfl := (Except.ok.inj h).symm
    refine ⟨hn, ?_, ?_, ?_⟩
    · intro x
      exact mem_setColFrom_cols x _ _ _ _
    · show (List.map _ _).length = _
      simp [mapCol]
    · show (t.rows.map _).map _ = _
      rw [List.map_map]
      rfl
  · rw [clean_nova_group, if_neg hn] at h
    cases h

theorem foldl_sanitize_cols (cs : List String) :
    ∀ t : Table, (cs.foldl sanitizeCol t).cols = t.cols := by
  induction cs with
  | nil => intro t; rfl
  | cons c cs ih =>
    intro t
    rw [List.foldl_cons, ih]
    rfl

theorem foldl_sanitize_length (cs : List String) :
    ∀ t : Table, (cs.foldl sanitizeCol t).rows.length = t.rows.length := by
  induction cs with
  | nil => intro t; rfl
  | cons c cs ih =>
    intro t
    rw [List.foldl_cons, ih]
    show ((t.rows.map _).map _).length = _
    simp

theorem clean_nutritional_ok {t u : Table}
    (h : clean_nutritional_columns t = .ok u) :
    (∀ c ∈ numCols, c ∈ t.cols) ∧ u.cols = t.cols ∧
    u.rows.length = t.rows.length ∧ u = numCols.foldl sanitizeCol t := by
  by_cases hc : ∀ c ∈ numCols, c ∈ t.cols
  · rw [clean_nutritional_columns, dif_pos hc] at h
    obtain rfl := (Except.ok.inj h).symm
    exact ⟨hc, foldl_sanitize_cols numCols t, foldl_sanitize_length numCols t,
      rfl⟩
  · rw [clean_nutritional_columns, dif_neg hc] at h
    cases h

/-! ### Existence of successful stage runs (for the second-pass analysis) -/

theorem clean_product_name_exists {t : Table} (h : "product_name" ∈ t.cols) :
    ∃ u, clean_product_name t = .ok u :=
  ⟨_, by rw [clean_product_name, if_pos h]⟩

theorem clean_brands_exists {t : Table} (h : "brands" ∈ t.cols) :
    ∃ u, clean_brands t = .ok u :=
  ⟨_, by rw [clean_brands, if_pos h]⟩

theorem clean_categories_exists {t : Table} (h : "categories" ∈ t.cols) :
    ∃ u, clean_categories t = .ok u :=
  ⟨_, by rw [clean_categories, if_pos h]⟩

theorem clean_countries_exists {t : Table} (h : "countries" ∈ t.cols) :
    ∃ u, clean_countries t = .ok u :=
  ⟨_, by rw [clean_countries, if_pos h]⟩

theorem clean_ilp_exists {t : Table} (h : "ingredients_text" ∈ t.cols ∧
    "labels" ∈ t.cols ∧ "packaging" ∈ t.cols) :
    ∃ u, clean_ingredients_labels_packaging t = .ok u :=
  ⟨_, by rw [clean_ingredients_labels_packaging, dif_pos h]⟩

/-- On a table that has the eight text-stage columns but lacks
`environmental_score_score` — exactly the shape of a cleaned output — the
pipeline reaches `clean_nutriscore` and dies on the column drop. -/
theorem pipeline_fails_without_env {t : Table}
    (h1 : "product_name" ∈ t.cols) (h2 : "brands" ∈ t.cols)
    (h3 : "categories" ∈ t.cols) (h4 : "countries" ∈ t.cols)
    (h5 : "ingredients_text" ∈ t.cols) (h6 : "labels" ∈ t.cols)
    (h7 : "packaging" ∈ t.cols) (h8 : "nutriscore_grade" ∈ t.cols)
    (henv : "environmental_score_score" ∉ t.cols) :
    run_pipeline t = .error "KeyError: environmental_score_score" := by
  have h1' : "product_name" ∈ (dedupTable t).cols := h1
  obtain ⟨u1, hu1⟩ := clean_product_name_exists h1'
  obtain ⟨-, hc1, -, -⟩ := clean_product_name_ok hu1
  obtain ⟨u2, hu2⟩ := clean_brands_exists (t := u1) (by rw [hc1]; exact h2)
  obtain ⟨-, hc2, -⟩ := clean_brands_ok hu2
  obtain ⟨u3, hu3⟩ := clean_categories_exists (t := u2)
    (by rw [hc2, hc1]; exact h3)
  obtain ⟨-, hc3, -⟩ := clean_categories_ok hu3
  obtain ⟨u4, hu4⟩ := clean_countries_exists (t := u3)
    ((hc3 _).2 (Or.inl (by rw [hc2, hc1]; exact h4)))
  obtain ⟨-, hc4⟩ := clean_countries_ok hu4
  have hc4c : u4.cols = u3.cols := by rw [hc4]; rfl
  obtain ⟨u5, hu5⟩ := clean_ilp_exists (t := u4)
    ⟨by rw [hc4c]; exact (hc3 _).2 (Or.inl (by rw [hc2, hc1]; exact h5)),
     by rw [hc4c]; exact (hc3 _).2 (Or.inl (by rw [hc2, hc1]; exact h6)),
     by rw [hc4c]; exact (hc3 _).2 (Or.inl (by rw [hc2, hc1]; exact h7))⟩
  obtain ⟨-, hc5, -⟩ := clean_ilp_ok hu5
  have hg5 : "nutriscore_grade" ∈ u5.cols := by
    rw [hc5, hc4c]
    exact (hc3 _).2 (Or.inl (by rw [hc2, hc1]; exact h8))
  have he5 : "environmental_score_score" ∉ u5.cols := by
    rw [hc5, hc4c]
    intro hmem
    rcases (hc3 _).1 hmem with hmem' | hmem'
    · rw [hc2, hc1] at hmem'
      exact henv hmem'
    · exact absurd hmem' (by decide)
  have herr := clean_nutriscore_err hg5 he5
  rw [run_pipeline, hu1]
  simp only [Except.bind]
  rw [hu2]
  simp only [Except.bind]
  rw [hu3]
  simp only [Except.bind]
  rw [hu4]
  simp only [Except.bind]
  rw [hu5]
  simp only [Except.bind]
  rw [herr]

/-- What a successful pipeline run guarantees about its output: the eight
text-stage columns survive, the dropped column is gone, and the row count
is the deduplicated count minus the `"Xxx"` rows. -/
theorem run_pipeline_ok_facts {t u : Table} (h : run_pipeline t = .ok u) :
    ("product_name" ∈ u.cols ∧ "brands" ∈ u.cols ∧ "categories" ∈ u.cols ∧
     "countries" ∈ u.cols ∧ "ingredients_text" ∈ u.cols ∧
     "labels" ∈ u.cols ∧ "packaging" ∈ u.cols ∧
     "nutriscore_grade" ∈ u.cols ∧
     "environmental_score_score" ∉ u.cols) ∧
    u.rows.length + countXxx (dedupKeepFirst t.rows) =
      (dedupKeepFirst t.rows).length := by
  rw [run_pipeline] at h
  obtain ⟨a1, e1, h⟩ := except_bind_ok h
  obtain ⟨a2, e2, h⟩ := except_bind_ok h
  obtain ⟨a3, e3, h⟩ := except_bind_ok h
  obtain ⟨a4, e4, h⟩ := except_bind_ok h
  obtain ⟨a5, e5, h⟩ := except_bind_ok h
  obtain ⟨a6, e6, h⟩ := except_bind_ok h
  obtain ⟨a7, e7, h⟩ := except_bind_ok h
  obtain ⟨a8, e8, h⟩ := except_bind_ok h
  have h' : Except.ok a8 = Except.ok u := h
  obtain rfl := (Except.ok.inj h').symm
  obtain ⟨o1, c1, -, len1⟩ := clean_product_name_ok e1
  obtain ⟨o2, c2, len2⟩ := clean_brands_ok e2
  obtain ⟨o3, c3, len3⟩ := clean_categories_ok e3
  obtain ⟨o4, c4eq⟩ := clean_countries_ok e4
  have c4 : a4.cols = a3.cols := by rw [c4eq]; rfl
  have len4 : a4.rows.length = a3.rows.length := by rw [c4eq]; simp [mapCol]
  obtain ⟨⟨o5a, o5b, o5c⟩, c5, len5⟩ := clean_ilp_ok e5
  obtain ⟨o6, oe6, c6, len6, -⟩ := clean_nutriscore_ok e6
  obtain ⟨o7, c7, len7, -⟩ := clean_nova_group_ok e7
  obtain ⟨o8, c8, len8, -⟩ := clean_nutritional_ok e8
  have toA2 : ∀ x : String, x ∈ (dedupTable t).cols → x ∈ a2.cols := by
    intro x hx
    rw [c2, c1]
    exact hx
  have toA5 : ∀ x : String, x ∈ a2.cols → x ∈ a5.cols := by
    intro x hx
    rw [c5, c4]
    exact (c3 x).2 (Or.inl hx)
  have toU : ∀ x : String, x ∈ a5.cols →
      x ≠ "environmental_score_score" → x ∈ u.cols := by
    intro x hx hne
    rw [c8]
    exact (c7 x).2 (Or.inl ((c6 x).2 ⟨Or.inl hx, hne⟩))
  have m2 : "brands" ∈ a2.cols := by rw [c2]; exact o2
  have m4 : "countries" ∈ a5.cols := by rw [c5, c4]; exact o4
  have m5a : "ingredients_text" ∈ a5.cols := by rw [c5]; exact o5a
  have m5b : "labels" ∈ a5.cols := by rw [c5]; exact o5b
  have m5c : "packaging" ∈ a5.cols := by rw [c5]; exact o5c
  have menv : "environmental_score_score" ∉ u.cols := by
    intro hmem
    rw [c8] at hmem
    rcases (c7 _).1 hmem with hmem' | hmem'
    · exact ((c6 _).1 hmem').2 rfl
    · exact absurd hmem' (by decide)
  have len1' : a1.rows.length + countXxx (dedupKeepFirst t.rows) =
      (dedupKeepFirst t.rows).length := len1
  refine ⟨⟨toU _ (toA5 _ (toA2 _ o1)) (by decide),
    toU _ (toA5 _ m2) (by decide),
    toU _ (toA5 _ o3) (by decide),
    toU _ m4 (by decide),
    toU _ m5a (by decide), toU _ m5b (by decide), toU _ m5c (by decide),
    toU _ o6 (by decide), menv⟩, ?_⟩
  omega

/-! ## The claims -/

/-- C1, counterexample: on `cexNum`, whose `fat_100g` column is entirely
missing, `clean_nutritional_columns` succeeds but returns the table
unchanged — the missing `fat_100g` cell survives, refuting "no missing
value remains in those columns" for every input table. -/
theorem c1_counterexample :
    clean_nutritional_columns cexNum = Except.ok cexNum ∧
    cexNumRow ∈ cexNum.rows ∧
    getCol cexNumRow "fat_100g" = some Value.na := by
  refine ⟨by rfl, ?_, by rfl⟩
  show cexNumRow ∈ [cexNumRow]
  exact List.mem_singleton.2 rfl

/-- C1, amended: for every table that has the eight numeric columns, whose
cells in those columns are numbers or missing, and in which each of the
eight columns holds at least one value inside `[0, 1000]`, the sanitizer
succeeds and afterwards every cell of those columns is a non-missing
number in `[0, 1000]`. -/
theorem c1_sanitized_in_range (t : Table)
    (hc : ∀ c ∈ numCols, c ∈ t.cols)
    (hp : ∀ c ∈ numCols, ∀ r ∈ t.rows, (getCol r c).isSome = true)
    (hv : ∀ c ∈ numCols, ∀ r ∈ t.rows,
      isNumOrNa ((getCol r c).getD Value.na) = true)
    (hne : ∀ c ∈ numCols, validNums t c ≠ []) :
    ∃ u, clean_nutritional_columns t = .ok u ∧
      ∀ c ∈ numCols, ∀ r ∈ u.rows,
        ∃ q, getCol r c = some (Value.num q) ∧ 0 ≤ q ∧ q ≤ 1000 := by
  refine ⟨numCols.foldl sanitizeCol t, ?_, ?_⟩
  · rw [clean_nutritional_columns, dif_pos hc]
  · exact foldl_sanitize_establishes numCols t (by decide)
      (fun c hcm => ⟨hp c hcm, hv c hcm, hne c hcm⟩)

/-- C1, witness: the amended sanitizer theorem at the concrete table
`wNum`. -/
theorem c1_witness :
    ∃ u, clean_nutritional_columns wNum = .ok u ∧
      ∀ c ∈ numCols, ∀ r ∈ u.rows,
        ∃ q, getCol r c = some (Value.num q) ∧ 0 ≤ q ∧ q ≤ 1000 :=
  c1_sanitized_in_range wNum (by decide) (by decide) (by decide) (by decide)

/-- C2, counterexample: the pipeline cleans `pipeIn` to `pipeOut`, but a
second run on `pipeOut` raises (`environmental_score_score` was already
dropped) instead of succeeding unchanged. -/
theorem c2_counterexample :
    run_pipeline pipeIn = Except.ok pipeOut ∧
    run_pipeline pipeOut =
      Except.error "KeyError: environmental_score_score" :=
  ⟨by rfl, by rfl⟩

/-- C2, amended: the pipeline is not idempotent — for every table that is
the output of one successful pipeline run, running the pipeline again does
not succeed: it fails at the nutriscore stage with a `KeyError` because the
`environmental_score_score` column was dropped by the first run. -/
theorem c2_rerun_fails {t u : Table} (h : run_pipeline t = .ok u) :
    run_pipeline u = .error "KeyError: environmental_score_score" := by
  obtain ⟨⟨m1, m2, m3, m4, m5, m6, m7, m8, m9⟩, -⟩ := run_pipeline_ok_facts h
  exact pipeline_fails_without_env m1 m2 m3 m4 m5 m6 m7 m8 m9

/-- C2, witness: the amended theorem at the concrete run
`pipeIn ↦ pipeOut`. -/
theorem c2_witness :
    run_pipeline pipeOut =
      Except.error "KeyError: environmental_score_score" :=
  c2_rerun_fails (t := pipeIn) (by rfl)

/-- C3: for every successful pipeline run, the written row count equals the
input row count minus the exact-duplicate rows removed by deduplication
minus the rows whose cleaned product name is `"Xxx"` (counted among the
deduplicated rows); no other stage adds or removes rows. -/
theorem c3_row_count {t u : Table} (h : run_pipeline t = .ok u) :
    u.rows.length = t.rows.length -
      (t.rows.length - (dedupKeepFirst t.rows).length) -
      countXxx (dedupKeepFirst t.rows) := by
  obtain ⟨-, hlen⟩ := run_pipeline_ok_facts h
  have hd := dedupKeepFirst_length_le t.rows
  have hx : countXxx (dedupKeepFirst t.rows) ≤
      (dedupKeepFirst t.rows).length :=
    (dedupKeepFirst t.rows).countP_le_length isXxxRow
  omega

/-- C3, witness: the row-count equation at the concrete table `dupXxxIn`
(three rows: one exact duplicate, one `"Xxx"` row). -/
theorem c3_witness :
    pipeOut.rows.length = dupXxxIn.rows.length -
      (dupXxxIn.rows.length - (dedupKeepFirst dupXxxIn.rows).length) -
      countXxx (dedupKeepFirst dupXxxIn.rows) :=
  c3_row_count (t := dupXxxIn) (by rfl)

/-- C4: for each of the eight numeric columns, the per-column sanitizer
pass equals a single map replacing every out-of-range and missing cell
with one and the same median — the median of the column's values inside
`[0, 1000]` (outliers removed before it is taken) — and keeping in-range
values. -/
theorem c4_median_replacement (t : Table) (c : String) (_hc : c ∈ numCols) :
    sanitizeCol t c = mapCol c (sanitizeV (medianQ (validNums t c))) t :=
  sanitizeCol_eq_spec t c

/-- C4, witness: the median-replacement equation at the concrete table
`wNum`, column `fat_100g`. -/
theorem c4_witness :
    ("fat_100g" ∈ numCols) ∧
    sanitizeCol wNum "fat_100g" =
      mapCol "fat_100g" (sanitizeV (medianQ (validNums wNum "fat_100g")))
        wNum :=
  ⟨by decide, c4_median_replacement wNum "fat_100g" (by decide)⟩

/-- C5: `clean_nutriscore` unconditionally drops
`environmental_score_score` whenever it succeeds, and on every table where
that column is absent it fails with an error rather than continuing. -/
theorem c5_env_drop (t : Table) :
    (∀ u, clean_nutriscore t = .ok u →
      "environmental_score_score" ∉ u.cols) ∧
    ("environmental_score_score" ∉ t.cols →
      ∃ e, clean_nutriscore t = .error e) := by
  constructor
  · intro u hu
    obtain ⟨-, -, hcols, -, -⟩ := clean_nutriscore_ok hu
    intro hmem
    exact ((hcols _).1 hmem).2 rfl
  · intro he
    by_cases hg : "nutriscore_grade" ∈ t.cols
    · exact ⟨_, clean_nutriscore_err hg he⟩
    · exact ⟨_, by rw [clean_nutriscore, if_neg hg]⟩

/-- C5, witness: the failure half of the drop theorem at the concrete
table `c5T`, which lacks `environmental_score_score`. -/
theorem c5_witness :
    ("environmental_score_score" ∉ c5T.cols) ∧
    ∃ e, clean_nutriscore c5T = Except.error e :=
  ⟨by decide, (c5_env_drop c5T).2 (by decide)⟩

/-- C6: `clean_countries` is a single per-cell map, and that map sends the
token `"Fr"` to `"France"`, `"Us"` to `"United States"`, and passes the
unmapped token `"Xyzland"` through unchanged. -/
theorem c6_country_mapping (t : Table) (h : "countries" ∈ t.cols) :
    clean_countries t = .ok (mapCol "countries" countriesV t) ∧
    countriesV (Value.text "Fr") = Value.text "France" ∧
    countriesV (Value.text "Us") = Value.text "United States" ∧
    countriesV (Value.text "Xyzland") = Value.text "Xyzland" := by
  refine ⟨?_, by rfl, by rfl, by rfl⟩
  rw [clean_countries, if_pos h]
  show Except.ok (mapCol "countries" countryMapVal
      (mapCol "countries" (fillnaV (Value.text "Unknown"))
        (mapCol "countries"
          (strMap fun s => pyTitle (commaSpace (commaTight (pyStrip s))))
          (mapCol "countries" (strMap stripWordColon) t)))) = _
  rw [mapCol_mapCol, mapCol_mapCol, mapCol_mapCol]
  refine congrArg Except.ok (congrArg (fun φ => mapCol "countries" φ t) ?_)
  funext v
  rfl

/-- C6, witness: the country-mapping theorem at the concrete table
`c6T`. -/
theorem c6_witness :
    clean_countries c6T = .ok (mapCol "countries" countriesV c6T) ∧
    countriesV (Value.text "Fr") = Value.text "France" ∧
    countriesV (Value.text "Us") = Value.text "United States" ∧
    countriesV (Value.text "Xyzland") = Value.text "Xyzland" :=
  c6_country_mapping c6T (by decide)

/-- C7: `clean_nutriscore` maps each row through `nutriRowF`, whose
`nutriscore_numeric` is a function of the raw grade sending `"a"` to `1`
and both a missing grade and the literal `"not-applicable"` to `0`. -/
theorem c7_nutriscore_mapping (t : Table)
    (hg : "nutriscore_grade" ∈ t.cols)
    (he : "environmental_score_score" ∈ t.cols) :
    ∃ u, clean_nutriscore t = .ok u ∧ u.rows = t.rows.map nutriRowF ∧
      (∀ r v, getCol r "nutriscore_grade" = some v →
        getCol (nutriRowF r) "nutriscore_numeric" = some (nutriNumV v)) ∧
      nutriNumV (Value.text "a") = Value.num 1 ∧
      nutriNumV Value.na = Value.num 0 ∧
      nutriNumV (Value.text "not-applicable") = Value.num 0 := by
  have he2 : "environmental_score_score" ∈
      (setColFrom "nutriscore_numeric" "nutriscore_grade" nutriMapV
        (mapCol "nutriscore_grade" gradeV t)).cols :=
    (mem_setColFrom_cols _ _ _ _ _).2 (Or.inl he)
  refine ⟨dropCol "environmental_score_score"
      (setColFrom "nutriscore_numeric" "nutriscore_grade" nutriMapV
        (mapCol "nutriscore_grade" gradeV t)),
    by rw [clean_nutriscore, if_pos hg, if_pos he2], ?_, ?_,
    by decide, by decide, by decide⟩
  · show ((t.rows.map _).map _).map _ = _
    rw [List.map_map, List.map_map]
    rfl
  · intro r v hrv
    rw [nutriRowF, setFromRow, getCol_dropColRow_ne (by decide),
      getCol_setColRow_self]
    congr 1
    rw [getCol_mapRowCol_self, hrv]
    rfl

/-- C7, witness: the nutriscore-mapping theorem at the concrete table
`c7T`. -/
theorem c7_witness :
    ∃ u, clean_nutriscore c7T = .ok u ∧ u.rows = c7T.rows.map nutriRowF ∧
      (∀ r v, getCol r "nutriscore_grade" = some v →
        getCol (nutriRowF r) "nutriscore_numeric" = some (nutriNumV v)) ∧
      nutriNumV (Value.text "a") = Value.num 1 ∧
      nutriNumV Value.na = Value.num 0 ∧
      nutriNumV (Value.text "not-applicable") = Value.num 0 :=
  c7_nutriscore_mapping c7T (by decide) (by decide)

/-- C8, counterexample: on `c8T`, whose `nova_group` is `5` (outside
`{1, 2, 3, 4}` and not missing), the stage succeeds but the derived label
is missing, not the string `"Unknown"`. -/
theorem c8_counterexample :
    clean_nova_group c8T = Except.ok c8TOut ∧
    c8TOutRow ∈ c8TOut.rows ∧
    getCol c8TOutRow "nova_group_label" = some Value.na ∧
    Value.na ≠ Value.text "Unknown" := by
  refine ⟨by rfl, ?_, by rfl, by decide⟩
  show c8TOutRow ∈ [c8TOutRow]
  exact List.mem_singleton.2 rfl

/-- C8, amended: `clean_nova_group` maps each row through `novaRowF`; the
derived label sends `1` to "Unprocessed or Minimally Processed", `4` to
"Ultra-Processed Foods", a missing value to `"Unknown"`, and every other
number to a missing label — the stage succeeds rather than failing. -/
theorem c8_nova_mapping (t : Table) (h : "nova_group" ∈ t.cols) :
    ∃ u, clean_nova_group t = .ok u ∧ u.rows = t.rows.map novaRowF ∧
      (∀ r v, getCol r "nova_group" = some v →
        getCol (novaRowF r) "nova_group_label" = some (novaLabelV v)) ∧
      novaLabelV (Value.num 1) =
        Value.text "Unprocessed or Minimally Processed" ∧
      novaLabelV (Value.num 4) = Value.text "Ultra-Processed Foods" ∧
      novaLabelV Value.na = Value.text "Unknown" ∧
      (∀ q : ℚ, q ≠ 1 → q ≠ 2 → q ≠ 3 → q ≠ 4 →
        novaLabelV (Value.num q) = Value.na) := by
  refine ⟨setColFrom "nova_group_label" "nova_group" novaMapV
      (mapCol "nova_group" (fillnaV (Value.text "unknown")) t),
    by rw [clean_nova_group, if_pos h], ?_, ?_,
    by decide, by decide, by decide, ?_⟩
  · show (t.rows.map _).map _ = _
    rw [List.map_map]
    rfl
  · intro r v hrv
    rw [novaRowF, setFromRow, getCol_setColRow_self]
    congr 1
    rw [getCol_mapRowCol_self, hrv]
    rfl
  · intro q h1 h2 h3 h4
    show novaMapV (Value.num q) = Value.na
    simp [novaMapV, h1, h2, h3, h4]

/-- C8, witness: the amended nova theorem at the concrete table `c8T`. -/
theorem c8_witness :
    ∃ u, clean_nova_group c8T = .ok u ∧ u.rows = c8T.rows.map novaRowF ∧
      (∀ r v, getCol r "nova_group" = some v →
        getCol (novaRowF r) "nova_group_label" = some (novaLabelV v)) ∧
      novaLabelV (Value.num 1) =
        Value.text "Unprocessed or Minimally Processed" ∧
      novaLabelV (Value.num 4) = Value.text "Ultra-Processed Foods" ∧
      novaLabelV Value.na = Value.text "Unknown" ∧
      (∀ q : ℚ, q ≠ 1 → q ≠ 2 → q ≠ 3 → q ≠ 4 →
        novaLabelV (Value.num q) = Value.na) :=
  c8_nova_mapping c8T (by decide)

/-- C9: `show_cleaning_summary` is purely observational — the table it
returns is its input, unchanged in every row, column and cell, so no data
it computes reaches any other stage. -/
theorem c9_reporter_identity (t : Table) (os : Nat × Nat) :
    (show_cleaning_summary t os).1 = t := rfl

/-- C10: `clean_product_name` first cleans names (unescape, strip, title),
then filters, then fills: every row whose raw name is `"xxx"` in any
letter case is removed by the filter, while a row with a missing name
passes the filter and leaves the stage with name `"Unknown"`. -/
theorem c10_xxx_filter_order (t : Table) (h : "product_name" ∈ t.cols) :
    ∃ u, clean_product_name t = .ok u ∧
      u.rows =
        ((t.rows.map prodCleanRow).filter keepRowPN).map fillUnknownRow ∧
      (∀ r s, s ∈ xxxVariants →
        getCol r "product_name" = some (Value.text s) →
        keepRowPN (prodCleanRow r) = false) ∧
      (∀ r, getCol r "product_name" = some Value.na →
        keepRowPN (prodCleanRow r) = true ∧
        getCol (fillUnknownRow (prodCleanRow r)) "product_name" =
          some (Value.text "Unknown")) := by
  obtain ⟨u, hu⟩ := clean_product_name_exists h
  obtain ⟨-, -, hrows, -⟩ := clean_product_name_ok hu
  refine ⟨u, hu, hrows, ?_, ?_⟩
  · intro r s hs hr
    rw [keepRowPN_prodCleanRow]
    have hx : isXxxRow r = true := by
      rw [isXxxRow, hr]
      rcases (by simpa [xxxVariants] using hs :
        s = "xxx" ∨ s = "xxX" ∨ s = "xXx" ∨ s = "xXX" ∨ s = "Xxx" ∨
        s = "XxX" ∨ s = "XXx" ∨ s = "XXX") with
        rfl | rfl | rfl | rfl | rfl | rfl | rfl | rfl <;> decide
    rw [hx]
    rfl
  · intro r hr
    constructor
    · rw [keepRowPN_prodCleanRow]
      have hx : isXxxRow r = false := by rw [isXxxRow, hr]; rfl
      rw [hx]
      rfl
    · rw [fillUnknownRow, getCol_mapRowCol_self, getCol_prodCleanRow, hr]
      rfl

/-- C10, witness: the filter-order theorem at the concrete table `c10T`
(one `"XXX"` row, one missing-name row). -/
theorem c10_witness :
    ∃ u, clean_product_name c10T = .ok u ∧
      u.rows =
        ((c10T.rows.map prodCleanRow).filter keepRowPN).map fillUnknownRow ∧
      (∀ r s, s ∈ xxxVariants →
        getCol r "product_name" = some (Value.text s) →
        keepRowPN (prodCleanRow r) = false) ∧
      (∀ r, getCol r "product_name" = some Value.na →
        keepRowPN (prodCleanRow r) = true ∧
        getCol (fillUnknownRow (prodCleanRow r)) "product_name" =
          some (Value.text "Unknown")) :=
  c10_xxx_filter_order c10T (by decide)

end OpenFood
